import Mathlib

/-!
# Verification of `roberthodgen/password`

A shallow embedding of `password.go` (package `password`): the `Hash` struct, the
constructors `New` and `NewChecker`, and the methods `Hash.Generate` and `Hash.Check`,
together with the library functions they call (`encoding/hex`, `crypto/sha256`,
`crypto/rand`, and the `hash.Hash` interface).

Conventions of the embedding:

* a Go `byte` is a `Fin 256`; a Go `string` and a Go `[]byte` are both `List Byte`
  (a Go string is a sequence of bytes, and `[]byte(s)` copies it unchanged);
* a Go `error` result is an `Option Error`, with `none` standing for `nil`;
* a method with a pointer receiver returns the updated receiver next to its result;
* `rand.Read` is an input of `Generate`: either an entropy failure, or a stream of
  bytes from which the buffer is filled;
* the `int` field `SaltLength` is an `Int`: it is only used as the length of a buffer,
  which `make` refuses when it is negative or too large, so no arithmetic on it can
  overflow.
-/

set_option linter.dupNamespace false

namespace Password

/-! ## Bytes and strings -/

/-- A Go `byte`. -/
abbrev Byte := Fin 256

/-- A Go `string` (equally a `[]byte`): its sequence of bytes. -/
abbrev GoString := List Byte

/-- The bytes of a string literal made of ASCII characters, where the UTF-8 encoding
is one byte per character, the character's code. -/
def lit (s : String) : GoString := s.data.map (fun c => Fin.ofNat c.toNat)

/-! ## Errors -/

/-- The error values that can come out of the package: the sentinel `ErrIncorrect`,
the two errors of `encoding/hex` (`InvalidByteError(c)` and `ErrLength`), and an error
of the entropy source, told apart by a code. -/
inductive Error where
  | ErrIncorrect
  | InvalidByteError (c : Byte)
  | ErrLength
  | RandError (code : Nat)
  deriving DecidableEq, Repr

deriving instance DecidableEq for Except

/-- The errors produced by `hex.DecodeString`. -/
def Error.isDecodeError : Error → Bool
  | .InvalidByteError _ => true
  | .ErrLength => true
  | _ => false

/-! ## `encoding/hex` -/

namespace hex

/-- The constant `hextable = "0123456789abcdef"`. -/
def hextable : GoString := lit "0123456789abcdef"

/-- Indexing `hextable[i]` for `i < 16`. -/
def hexdigit (i : Nat) : Byte := hextable.getD i 0

/-- `hex.EncodeToString`: each byte `v` gives `hextable[v>>4]`, `hextable[v&0x0f]`. -/
def EncodeToString : List Byte → GoString
  | [] => []
  | v :: rest => hexdigit (v.val / 16) :: hexdigit (v.val % 16) :: EncodeToString rest

/-- `fromHexChar`: the value of a hexadecimal digit, in either case. -/
def fromHexChar (c : Byte) : Option Nat :=
  if 48 ≤ c.val ∧ c.val ≤ 57 then some (c.val - 48)
  else if 97 ≤ c.val ∧ c.val ≤ 102 then some (c.val - 97 + 10)
  else if 65 ≤ c.val ∧ c.val ≤ 70 then some (c.val - 65 + 10)
  else none

/-- `hex.DecodeString`: pairs of digits are decoded left to right; the first invalid
character met gives `InvalidByteError`, and a trailing single valid digit gives
`ErrLength`.  The bytes decoded before an error are dropped, as `Check` ignores them. -/
def DecodeString : GoString → Except Error (List Byte)
  | [] => .ok []
  | [p] =>
    match fromHexChar p with
    | none => .error (.InvalidByteError p)
    | some _ => .error .ErrLength
  | p :: q :: rest =>
    match fromHexChar p with
    | none => .error (.InvalidByteError p)
    | some a =>
      match fromHexChar q with
      | none => .error (.InvalidByteError q)
      | some b =>
        match DecodeString rest with
        | .error e => .error e
        | .ok bs => .ok (Fin.ofNat (a * 16 + b) :: bs)

end hex

/-! ## The `hash.Hash` interface -/

namespace hash

/-- A value of the interface `hash.Hash`: a digest algorithm `alg` together with the
working state of the context, which is the sequence of bytes written since the last
`Reset`.  `Sum` is the digest of exactly those bytes. -/
structure Hash where
  alg : List Byte → List Byte
  written : List Byte

/-- `Reset()` discards what was written. -/
def Hash.Reset (d : Hash) : Hash := { d with written := [] }

/-- `Write(p)` appends `p` to what was written. -/
def Hash.Write (d : Hash) (p : List Byte) : Hash := { d with written := d.written ++ p }

/-- `Sum(b)` appends the digest of what was written to `b`, leaving the state alone. -/
def Hash.Sum (d : Hash) (b : List Byte) : List Byte := b ++ d.alg d.written

end hash

/-! ## `crypto/sha256` -/

namespace sha256

/-- The round constants `_K`. -/
def _K : List Nat := [
  0x428a2f98, 0x71374491, 0xb5c0fbcf, 0xe9b5dba5, 0x3956c25b, 0x59f111f1, 0x923f82a4, 0xab1c5ed5,
  0xd807aa98, 0x12835b01, 0x243185be, 0x550c7dc3, 0x72be5d74, 0x80deb1fe, 0x9bdc06a7, 0xc19bf174,
  0xe49b69c1, 0xefbe4786, 0x0fc19dc6, 0x240ca1cc, 0x2de92c6f, 0x4a7484aa, 0x5cb0a9dc, 0x76f988da,
  0x983e5152, 0xa831c66d, 0xb00327c8, 0xbf597fc7, 0xc6e00bf3, 0xd5a79147, 0x06ca6351, 0x14292967,
  0x27b70a85, 0x2e1b2138, 0x4d2c6dfc, 0x53380d13, 0x650a7354, 0x766a0abb, 0x81c2c92e, 0x92722c85,
  0xa2bfe8a1, 0xa81a664b, 0xc24b8b70, 0xc76c51a3, 0xd192e819, 0xd6990624, 0xf40e3585, 0x106aa070,
  0x19a4c116, 0x1e376c08, 0x2748774c, 0x34b0bcb5, 0x391c0cb3, 0x4ed8aa4a, 0x5b9cca4f, 0x682e6ff3,
  0x748f82ee, 0x78a5636f, 0x84c87814, 0x8cc70208, 0x90befffa, 0xa4506ceb, 0xbef9a3f7, 0xc67178f2]

/-- A `uint32` value of a natural number. -/
def u32 (x : Nat) : Nat := x % 4294967296

/-- `bits.RotateLeft32(x, -n)` for `0 < n < 32` and `x` a `uint32`. -/
def rotr (x n : Nat) : Nat := u32 ((x >>> n) ||| (x <<< (32 - n)))

/-- The eight chaining words `h0 .. h7` of a digest. -/
structure State where
  a : Nat
  b : Nat
  c : Nat
  d : Nat
  e : Nat
  f : Nat
  g : Nat
  h : Nat
  deriving DecidableEq, Repr

/-- The initial chaining value `init0 .. init7`. -/
def init : State :=
  ⟨0x6a09e667, 0xbb67ae85, 0x3c6ef372, 0xa54ff53a, 0x510e527f, 0x9b05688c, 0x1f83d9ab, 0x5be0cd19⟩

/-- The sixteen big-endian words of a 64-byte chunk. -/
def words : List Byte → List Nat
  | b0 :: b1 :: b2 :: b3 :: rest =>
    (b0.val <<< 24 ||| b1.val <<< 16 ||| b2.val <<< 8 ||| b3.val) :: words rest
  | _ => []

/-- The message schedule: `w` holds `w[i-1], w[i-2], ...` (newest first); `n` more
words are appended. -/
def schedule : Nat → List Nat → List Nat
  | 0, w => w
  | n + 1, w =>
    let v1 := w.getD 1 0
    let t1 := rotr v1 17 ^^^ rotr v1 19 ^^^ (v1 >>> 10)
    let v2 := w.getD 14 0
    let t2 := rotr v2 7 ^^^ rotr v2 18 ^^^ (v2 >>> 3)
    schedule n (u32 (t1 + w.getD 6 0 + t2 + w.getD 15 0) :: w)

/-- One of the 64 rounds of `blockGeneric`, on the working variables `a .. h`, with
`kw = (_K[i], w[i])`. -/
def round (s : State) (kw : Nat × Nat) : State :=
  let t1 := u32 (s.h + (rotr s.e 6 ^^^ rotr s.e 11 ^^^ rotr s.e 25)
    + ((s.e &&& s.f) ^^^ ((s.e ^^^ 0xffffffff) &&& s.g)) + kw.1 + kw.2)
  let t2 := u32 ((rotr s.a 2 ^^^ rotr s.a 13 ^^^ rotr s.a 22)
    + ((s.a &&& s.b) ^^^ (s.a &&& s.c) ^^^ (s.b &&& s.c)))
  ⟨u32 (t1 + t2), s.a, s.b, s.c, u32 (s.d + t1), s.e, s.f, s.g⟩

/-- The body of `blockGeneric` for one 64-byte chunk `p`. -/
def block (s : State) (p : List Byte) : State :=
  let w := (schedule 48 (words p).reverse).reverse
  let r := (_K.zip w).foldl round s
  ⟨u32 (s.a + r.a), u32 (s.b + r.b), u32 (s.c + r.c), u32 (s.d + r.d),
   u32 (s.e + r.e), u32 (s.f + r.f), u32 (s.g + r.g), u32 (s.h + r.h)⟩

/-- `blockGeneric`: consumes `p` in chunks of 64 bytes (`n` bounds the number of chunks). -/
def blocks : Nat → State → List Byte → State
  | 0, s, _ => s
  | n + 1, s, p => if p.length < 64 then s else blocks n (block s (p.take 64)) (p.drop 64)

/-- Big-endian bytes of `x`, `n` of them. -/
def bigEndian : Nat → Nat → List Byte
  | 0, _ => []
  | n + 1, x => Fin.ofNat (x >>> (8 * n)) :: bigEndian n x

/-- The padding written by `checkSum` after `len` bytes: `0x80`, zeros up to 56 modulo
64, then the length in bits as a big-endian `uint64`. -/
def padding (len : Nat) : List Byte :=
  let t := if len % 64 < 56 then 56 - len % 64 else 64 + 56 - len % 64
  (128 : Byte) :: List.replicate (t - 1) 0 ++ bigEndian 8 ((len <<< 3) % 18446744073709551616)

/-- The SHA-256 digest of `data` (FIPS 180-4), as `Sum` returns it for a context in
which `data` is what was written since the last `Reset`. -/
def Sum256 (data : List Byte) : List Byte :=
  let p := data ++ padding data.length
  let s := blocks (p.length / 64) init p
  bigEndian 4 s.a ++ bigEndian 4 s.b ++ bigEndian 4 s.c ++ bigEndian 4 s.d ++
  bigEndian 4 s.e ++ bigEndian 4 s.f ++ bigEndian 4 s.g ++ bigEndian 4 s.h

/-- `sha256.New()`: a fresh SHA-256 context. -/
def New : hash.Hash := { alg := Sum256, written := [] }

end sha256

/-! ## `hash/adler32`

Another implementation of `hash.Hash` from the standard library, which a caller may
store in the exported field `HashFn`. -/

namespace adler32

/-- The update loop of `adler32`: `s1 += x; s2 += s1`, both modulo 65521. -/
def update : Nat × Nat → List Byte → Nat × Nat
  | s, [] => s
  | (s1, s2), x :: rest => update ((s1 + x.val) % 65521, (s2 + (s1 + x.val) % 65521) % 65521) rest

/-- The Adler-32 checksum of `data` as the four bytes `Sum` returns (`s2<<16 | s1`,
big-endian), starting from the digest value 1. -/
def Checksum (data : List Byte) : List Byte :=
  let s := update (1, 0) data
  sha256.bigEndian 4 (s.2 <<< 16 ||| s.1)

/-- `adler32.New()`. -/
def New : hash.Hash := { alg := Checksum, written := [] }

end adler32

/-! ## `crypto/rand` -/

namespace rand

/-- What the entropy source does when `rand.Read` is called: it fails with an error, or
it supplies bytes, here the stream `stream 0, stream 1, ...`. -/
inductive Source where
  | fail (code : Nat)
  | bytes (stream : Nat → Byte)

/-- The contents of a buffer of `n` bytes filled from a stream. -/
def fill (n : Nat) (stream : Nat → Byte) : List Byte := (List.range n).map stream

/-- `rand.Read(b)` for a buffer `b` of length `n`: the error, or the filled buffer. -/
def Read (n : Nat) : Source → Except Error (List Byte)
  | .fail code => .error (.RandError code)
  | .bytes stream => .ok (fill n stream)

end rand

/-! ## `password.go` -/

/-- The constant `DefaultSaltLength`. -/
def DefaultSaltLength : Int := 16

/-- The struct `Hash`. -/
structure Hash where
  SaltLength : Int
  HashFn : hash.Hash
  Hash : GoString
  Salt : GoString

/-- The function `New`: the fields `Hash` and `Salt` keep their zero value `""`. -/
def New : Hash :=
  { SaltLength := DefaultSaltLength, HashFn := sha256.New, Hash := [], Salt := [] }

/-- The runtime's bound `maxAlloc` on the size of one allocation, `1 << 48` on 64-bit
platforms: `make` panics for a longer byte slice. -/
def maxAlloc : Int := 281474976710656

/-- The built-in `make([]byte, n)`: a buffer of `n` zero bytes, or `none` for the panic
`makeslice: len out of range`, raised when `n` is negative or exceeds `maxAlloc`. -/
def make (n : Int) : Option (List Byte) :=
  if n < 0 ∨ maxAlloc < n then none else some (List.replicate n.toNat 0)

/-- How a call of `Generate` ends: `make([]byte, h.SaltLength)` panics on a negative or
too large length, before anything else is done; otherwise the method returns an error
value, with the receiver as it left it. -/
inductive Outcome where
  | panic
  | ret (h : Hash) (err : Option Error)

/-- The method `Hash.Generate`. -/
def Generate (h : Hash) (plainText : GoString) (src : rand.Source) : Outcome :=
  match make h.SaltLength with
  | none => .panic
  | some buf =>
    match rand.Read buf.length src with
    | .error err => .ret h (some err)
    | .ok b =>
      let fn := h.HashFn.Reset
      let fn := fn.Write plainText
      let fn := fn.Write b
      let h := { h with HashFn := fn }
      let h := { h with Salt := hex.EncodeToString b }
      let h := { h with Hash := hex.EncodeToString (h.HashFn.Sum []) }
      .ret h none

/-- The function `NewChecker`. -/
def NewChecker (hash salt : GoString) : Hash :=
  { SaltLength := DefaultSaltLength, HashFn := sha256.New, Hash := hash, Salt := salt }

/-- The method `Hash.Check`: the receiver after the call, and the error returned. -/
def Check (h : Hash) (plainText : GoString) : Hash × Option Error :=
  match hex.DecodeString h.Salt with
  | .error err => (h, some err)
  | .ok b =>
    let fn := h.HashFn.Reset
    let fn := fn.Write plainText
    let fn := fn.Write b
    let h := { h with HashFn := fn }
    if hex.EncodeToString (h.HashFn.Sum []) ≠ h.Hash then (h, some .ErrIncorrect)
    else (h, none)

/-- The receiver after a call of `Generate`; a panic happens before any field is
written, so a caller that recovers from it finds the receiver unchanged. -/
def Outcome.receiver (o : Outcome) (h : Hash) : Hash :=
  match o with
  | .panic => h
  | .ret h1 _ => h1

/-! ## Reachable instances -/

/-- The instances reachable through `New`, `NewChecker`, `Generate` and `Check`, where
`NewChecker` is called with arguments satisfying `args`.  A `Generate` that returns,
with or without error, and a `Check` leave the receiver reachable. -/
inductive Reachable (args : GoString → GoString → Prop) : Hash → Prop where
  | new : Reachable args New
  | newChecker (hash salt : GoString) : args hash salt → Reachable args (NewChecker hash salt)
  | generate (h h1 : Hash) (S : GoString) (src : rand.Source) (err : Option Error) :
      Reachable args h → Generate h S src = .ret h1 err → Reachable args h1
  | check (h : Hash) (P : GoString) : Reachable args h → Reachable args (Check h P).1

/-- The instances obtained from `h0` by any sequence of `Generate` and `Check` calls
that return. -/
inductive UsedFrom (h0 : Hash) : Hash → Prop where
  | start : UsedFrom h0 h0
  | generate (h h1 : Hash) (S : GoString) (src : rand.Source) (err : Option Error) :
      UsedFrom h0 h → Generate h S src = .ret h1 err → UsedFrom h0 h1
  | check (h : Hash) (P : GoString) : UsedFrom h0 h → UsedFrom h0 (Check h P).1

/-- A fresh instance of the kind of `h0`, with a hash context of the same algorithm
that has been fed nothing, holding the `Hash`, `Salt` and `SaltLength` of `h`. -/
def freshLike (h0 h : Hash) : Hash :=
  { SaltLength := h.SaltLength, HashFn := { alg := h0.HashFn.alg, written := [] },
    Hash := h.Hash, Salt := h.Salt }

/-! ## Hexadecimal strings, as the specification words them -/

/-- A hexadecimal digit: one of `0-9`, `a-f`, `A-F`. -/
def isHexChar (c : Byte) : Bool :=
  (48 ≤ c.val && c.val ≤ 57) || (97 ≤ c.val && c.val ≤ 102) || (65 ≤ c.val && c.val ≤ 70)

/-- A lowercase hexadecimal digit: one of `0-9`, `a-f`. -/
def isLowerHexChar (c : Byte) : Bool :=
  (48 ≤ c.val && c.val ≤ 57) || (97 ≤ c.val && c.val ≤ 102)

/-- Valid hexadecimal: an even number of characters, all of them hexadecimal digits. -/
def validHex (s : GoString) : Bool := s.length % 2 == 0 && s.all isHexChar

/-- Valid lowercase hexadecimal of even length. -/
def validLowerHex (s : GoString) : Bool := s.length % 2 == 0 && s.all isLowerHexChar

/-! ## Upper-case forms of a salt -/

/-- The upper-case form of a letter `a-f`; any other byte is left as it is. -/
def upperHex (c : Byte) : Byte :=
  if 97 ≤ c.val ∧ c.val ≤ 102 then Fin.ofNat (c.val - 32) else c

/-- The string `s` in which the letters `a-f` at the positions selected by `sel` are
replaced by their upper-case forms. -/
def upperAt (sel : Nat → Bool) : GoString → GoString
  | [] => []
  | c :: cs => (if sel 0 then upperHex c else c) :: upperAt (fun i => sel (i + 1)) cs

/-- The stream of bytes that starts with the bytes of `b` and goes on with zeros. -/
def rand.streamOf (b : List Byte) : Nat → Byte := fun i => b.getD i 0

/-! ## Inputs used in the examples -/

/-- The password of `TestHash_Generate`. -/
def testPassword : GoString := lit "N01C@nGue$$MySup3rS3cr3tP4$$w0rd!"

/-- A stream of bytes for the random source: 0, 7, 14, ... -/
def sevens : Nat → Byte := fun i => Fin.ofNat (7 * i)

/-- The stored hash of `TestHash_Check`. -/
def myHash : GoString := lit "0f3520c0e4de843a14c441cde417fbbab2e336d9502a998374c7e907020e2e47"

/-- The stored salt of `TestHash_Check`. -/
def mySalt : GoString := lit "890c5970bb07262e"

/-- The instance left by `Generate(testPassword)` on `New()` when the random source
delivers the bytes of `sevens`. -/
def generated : Hash := (Generate New testPassword (.bytes sevens)).receiver New

/-- The default instance with its hash function replaced by Adler-32, through the
exported field `HashFn`. -/
def adlerInstance : Hash := { New with HashFn := adler32.New }

/-- The instance `generated` after a further `Check("wrong")`: a used instance, whose
hash context has been fed. -/
def used : Hash := (Check generated (lit "wrong")).1

/-- The instance left by `Generate("pw")` on `adlerInstance` when the random source
delivers 0, 2, 0, 0, ... -/
def adlerFirst : Hash :=
  (Generate adlerInstance (lit "pw") (.bytes (rand.streamOf [0, 2, 0]))).receiver adlerInstance

/-- The instance left by a second `Generate("pw")`, on `adlerFirst`, when the random
source delivers 1, 0, 1, 0, ... -/
def adlerSecond : Hash :=
  (Generate adlerFirst (lit "pw") (.bytes (rand.streamOf [1, 0, 1]))).receiver adlerFirst

/-- The default instance with `SaltLength` set to -1, through the exported field. -/
def negativeSalt : Hash := { New with SaltLength := -1 }

/-- The default instance with `SaltLength` set to `1 << 62`. -/
def hugeSalt : Hash := { New with SaltLength := 4611686018427387904 }

/-- The default instance with `SaltLength` set to 33, through the exported field. -/
def longSalt : Hash := { New with SaltLength := 33 }

/-- The eight bytes that `mySalt` denotes. -/
def mySaltBytes : List Byte := [0x89, 0x0c, 0x59, 0x70, 0xbb, 0x07, 0x26, 0x2e]

/-- The stored hash of `TestHash_Check` written with upper-case letters. -/
def upperHash : GoString := lit "0F3520C0E4DE843A14C441CDE417FBBAB2E336D9502A998374C7E907020E2E47"

/-- The digest printed in the specification's concrete vector: 62 characters, the
test's `myHash` without its last two. -/
def specDigest : GoString := lit "0f3520c0e4de843a14c441cde417fbbab2e336d9502a998374c7e907020e2e"

/-! ## Lemmas on `encoding/hex` -/

namespace hex

theorem fromHexChar_hi (v : Byte) : fromHexChar (hexdigit (v.val / 16)) = some (v.val / 16) := by
  revert v; decide!

theorem fromHexChar_lo (v : Byte) : fromHexChar (hexdigit (v.val % 16)) = some (v.val % 16) := by
  revert v; decide!

theorem ofNat_nibbles (v : Byte) : (Fin.ofNat (v.val / 16 * 16 + v.val % 16) : Byte) = v := by
  revert v; decide!

/-- Decoding what `EncodeToString` produced gives the bytes back, without error. -/
theorem DecodeString_EncodeToString (b : List Byte) :
    DecodeString (EncodeToString b) = .ok b := by
  induction b with
  | nil => rfl
  | cons v rest ih =>
    simp only [EncodeToString, DecodeString, fromHexChar_hi, fromHexChar_lo, ih, ofNat_nibbles]

/-- Two byte strings with the same encoding are equal. -/
theorem EncodeToString_injective {a b : List Byte}
    (h : EncodeToString a = EncodeToString b) : a = b := by
  have h1 := DecodeString_EncodeToString a
  rw [h, DecodeString_EncodeToString] at h1
  exact (Except.ok.inj h1).symm

theorem EncodeToString_length (b : List Byte) : (EncodeToString b).length = 2 * b.length := by
  induction b with
  | nil => rfl
  | cons v rest ih => simp only [EncodeToString, List.length_cons, ih]; omega

theorem fromHexChar_isSome (c : Byte) : (fromHexChar c).isSome = isHexChar c := by
  revert c; decide!

theorem fromHexChar_none {c : Byte} (h : isHexChar c = false) : fromHexChar c = none := by
  have := fromHexChar_isSome c
  rw [h] at this
  cases hc : fromHexChar c with
  | none => rfl
  | some v => rw [hc] at this; cases this

theorem fromHexChar_some {c : Byte} (h : isHexChar c = true) : ∃ v, fromHexChar c = some v := by
  have := fromHexChar_isSome c
  rw [h] at this
  cases hc : fromHexChar c with
  | none => rw [hc] at this; cases this
  | some v => exact ⟨v, rfl⟩

/-- The outcome of `DecodeString s` according to `validHex s`: bytes when the string is
valid, a decode error when it is not. -/
theorem DecodeString_cases : ∀ (n : Nat) (s : GoString), s.length ≤ n →
    (validHex s = true ∧ ∃ b, DecodeString s = .ok b ∧ 2 * b.length = s.length) ∨
      (validHex s = false ∧ ∃ e, DecodeString s = .error e ∧ e.isDecodeError = true)
  | _, [], _ => Or.inl ⟨rfl, [], rfl, rfl⟩
  | _, [p], _ => by
    right
    refine ⟨rfl, ?_⟩
    cases hp : fromHexChar p with
    | none => exact ⟨.InvalidByteError p, by simp only [DecodeString, hp], rfl⟩
    | some v => exact ⟨.ErrLength, by simp only [DecodeString, hp], rfl⟩
  | 0, _ :: _ :: _, hl => absurd hl (by simp)
  | n + 1, p :: q :: rest, hl => by
    have hlen : rest.length ≤ n := by simp only [List.length_cons] at hl; omega
    have hv : validHex (p :: q :: rest) = (isHexChar p && (isHexChar q && validHex rest)) := by
      have hm : (rest.length + 1 + 1) % 2 = rest.length % 2 := by omega
      simp only [validHex, List.length_cons, List.all_cons, hm]
      cases isHexChar p <;> cases isHexChar q <;> simp
    rw [hv]
    cases hp : isHexChar p with
    | false =>
      right
      exact ⟨rfl, .InvalidByteError p, by simp only [DecodeString, fromHexChar_none hp], rfl⟩
    | true =>
      obtain ⟨a, ha⟩ := fromHexChar_some hp
      cases hq : isHexChar q with
      | false =>
        right
        exact ⟨rfl, .InvalidByteError q, by simp only [DecodeString, ha, fromHexChar_none hq], rfl⟩
      | true =>
        obtain ⟨c, hc⟩ := fromHexChar_some hq
        rcases DecodeString_cases n rest hlen with ⟨hr, bs, hbs, hl2⟩ | ⟨hr, e, he, hde⟩
        · left
          refine ⟨by simp [hr], Fin.ofNat (a * 16 + c) :: bs,
            by simp only [DecodeString, ha, hc, hbs], ?_⟩
          simp only [List.length_cons]; omega
        · right
          exact ⟨by simp [hr], e, by simp only [DecodeString, ha, hc, he], hde⟩

/-- On a valid hexadecimal string `DecodeString` returns bytes, half as many as the
string has characters. -/
theorem DecodeString_of_valid {s : GoString} (h : validHex s = true) :
    ∃ b, DecodeString s = .ok b ∧ 2 * b.length = s.length := by
  rcases DecodeString_cases s.length s le_rfl with ⟨_, hb⟩ | ⟨hf, _⟩
  · exact hb
  · rw [h] at hf; cases hf

/-- On a string that is not valid hexadecimal `DecodeString` returns a decode error. -/
theorem DecodeString_of_invalid {s : GoString} (h : validHex s = false) :
    ∃ e, DecodeString s = .error e ∧ e.isDecodeError = true := by
  rcases DecodeString_cases s.length s le_rfl with ⟨ht, _⟩ | ⟨_, he⟩
  · rw [h] at ht; cases ht
  · exact he

/-- An error of `DecodeString` is a decode error. -/
theorem DecodeString_error {s : GoString} {e : Error} (h : DecodeString s = .error e) :
    e.isDecodeError = true := by
  rcases DecodeString_cases s.length s le_rfl with ⟨_, b, hb, _⟩ | ⟨_, e1, he, hde⟩
  · rw [hb] at h; cases h
  · rw [he] at h; cases h; exact hde

theorem hexdigit_hi_lower (v : Byte) : isLowerHexChar (hexdigit (v.val / 16)) = true := by
  revert v; decide!

theorem hexdigit_lo_lower (v : Byte) : isLowerHexChar (hexdigit (v.val % 16)) = true := by
  revert v; decide!

/-- The characters of an encoding are lowercase hexadecimal digits. -/
theorem EncodeToString_all_lower (b : List Byte) :
    (EncodeToString b).all isLowerHexChar = true := by
  induction b with
  | nil => rfl
  | cons v rest ih =>
    simp only [EncodeToString, List.all_cons, hexdigit_hi_lower, hexdigit_lo_lower, ih,
      Bool.and_self]

/-- An encoding is a valid lowercase hexadecimal string of even length. -/
theorem EncodeToString_validLowerHex (b : List Byte) :
    validLowerHex (EncodeToString b) = true := by
  simp [validLowerHex, EncodeToString_all_lower, EncodeToString_length]

end hex

/-! ## Lemmas on upper-case forms -/

namespace hex

theorem fromHexChar_upperHex (c : Byte) : fromHexChar (upperHex c) = fromHexChar c := by
  revert c; decide!

theorem upperHex_of_invalid : ∀ c : Byte, fromHexChar c = none → upperHex c = c := by
  decide!

theorem fromHexChar_pick (m : Bool) (c : Byte) :
    fromHexChar (if m = true then upperHex c else c) = fromHexChar c := by
  cases m
  · rfl
  · exact fromHexChar_upperHex c

theorem pick_of_invalid (m : Bool) {c : Byte} (h : fromHexChar c = none) :
    (if m = true then upperHex c else c) = c := by
  cases m
  · rfl
  · exact upperHex_of_invalid c h

/-- Writing letters `a-f` of a string in upper case changes nothing to what
`DecodeString` returns, bytes or error. -/
theorem DecodeString_upperAt : ∀ (n : Nat) (s : GoString) (sel : Nat → Bool), s.length ≤ n →
    DecodeString (upperAt sel s) = DecodeString s
  | _, [], _, _ => rfl
  | _, [p], sel, _ => by
    simp only [upperAt, DecodeString, fromHexChar_pick]
    cases hp : fromHexChar p with
    | none => simp only [pick_of_invalid (sel 0) hp]
    | some v => rfl
  | 0, _ :: _ :: _, _, hl => absurd hl (by simp)
  | n + 1, p :: q :: rest, sel, hl => by
    have hlen : rest.length ≤ n := by simp only [List.length_cons] at hl; omega
    have ih := fun t => DecodeString_upperAt n rest t hlen
    simp only [upperAt, DecodeString, fromHexChar_pick, ih]
    cases hp : fromHexChar p with
    | none => simp only [pick_of_invalid (sel 0) hp]
    | some a =>
      cases hq : fromHexChar q with
      | none => simp only [pick_of_invalid (sel (0 + 1)) hq]
      | some b => rfl

end hex

/-! ## Lemmas on `crypto/sha256` and `crypto/rand` -/

namespace sha256

theorem bigEndian_length (n x : Nat) : (bigEndian n x).length = n := by
  induction n with
  | zero => rfl
  | succ k ih => simp [bigEndian, ih]

/-- A SHA-256 digest has 32 bytes. -/
theorem Sum256_length (data : List Byte) : (Sum256 data).length = 32 := by
  simp [Sum256, bigEndian_length]

/-- SHA-256 maps infinitely many messages to finitely many digests, so whatever is
appended, two different messages have the same digest. -/
theorem exists_collision (b : List Byte) :
    ∃ x y : List Byte, x ≠ y ∧ Sum256 (x ++ b) = Sum256 (y ++ b) := by
  obtain ⟨x, y, hne, heq⟩ := Finite.exists_ne_map_eq_of_infinite
    (show List Byte → Mathlib.Vector Byte 32 from fun S => ⟨Sum256 (S ++ b), Sum256_length _⟩)
  exact ⟨x, y, hne, congrArg Subtype.val heq⟩

end sha256

theorem rand.fill_length (n : Nat) (stream : Nat → Byte) : (rand.fill n stream).length = n := by
  simp [rand.fill]

/-- Every byte string is what a buffer of its length receives from its stream. -/
theorem rand.fill_streamOf (b : List Byte) : rand.fill b.length (rand.streamOf b) = b := by
  apply List.ext_getElem
  · simp [rand.fill]
  · intro i h1 h2
    simp [rand.fill, rand.streamOf, List.getD_eq_getElem?_getD, List.getElem?_eq_getElem h2]

/-- There are more salts of 33 bytes than SHA-256 digests, so after any message two
different salts of 33 bytes give the same digest. -/
theorem sha256.exists_salt_collision (S : List Byte) :
    ∃ b c : List Byte, b.length = 33 ∧ c.length = 33 ∧ b ≠ c ∧
      sha256.Sum256 (S ++ b) = sha256.Sum256 (S ++ c) := by
  have hcard : Fintype.card (Mathlib.Vector Byte 32) < Fintype.card (Mathlib.Vector Byte 33) := by
    rw [card_vector, card_vector, Fintype.card_fin]
    exact Nat.pow_lt_pow_right (by norm_num) (by norm_num)
  obtain ⟨x, y, hne, heq⟩ := Fintype.exists_ne_map_eq_of_card_lt
    (show Mathlib.Vector Byte 33 → Mathlib.Vector Byte 32 from
      fun v => ⟨sha256.Sum256 (S ++ v.val), sha256.Sum256_length _⟩) hcard
  exact ⟨x.val, y.val, x.property, y.property, fun h => hne (Subtype.ext h),
    congrArg Subtype.val heq⟩

/-! ## Lemmas on `Generate` and `Check` -/

/-- When `make` yields a buffer, it has `n` bytes and `n` is within bounds. -/
theorem make_some {n : Int} {buf : List Byte} (h : make n = some buf) :
    0 ≤ n ∧ n ≤ maxAlloc ∧ buf.length = n.toNat := by
  unfold make at h
  split at h
  · cases h
  · rename_i hc
    simp only [Option.some.injEq] at h
    subst h
    exact ⟨by omega, by omega, List.length_replicate _ _⟩

/-- On a length within bounds `make` yields a buffer. -/
theorem make_of_bounds {n : Int} (h0 : 0 ≤ n) (h1 : n ≤ maxAlloc) :
    make n = some (List.replicate n.toNat 0) := by
  unfold make
  rw [if_neg (by omega)]

/-- On a length out of bounds `make` panics. -/
theorem make_none {n : Int} (h : n < 0 ∨ maxAlloc < n) : make n = none := by
  unfold make
  rw [if_pos h]

/-- What `Generate` does on a `SaltLength` out of bounds: the panic of `make`. -/
theorem Generate_panic (h : Hash) (S : GoString) (src : rand.Source)
    (hb : h.SaltLength < 0 ∨ maxAlloc < h.SaltLength) : Generate h S src = .panic := by
  unfold Generate
  rw [make_none hb]

/-- What `Generate` does on a `SaltLength` within bounds: the buffer read has
`SaltLength` bytes. -/
theorem Generate_of_bounds (h : Hash) (S : GoString) (src : rand.Source)
    (h0 : 0 ≤ h.SaltLength) (h1 : h.SaltLength ≤ maxAlloc) :
    Generate h S src =
      match rand.Read h.SaltLength.toNat src with
      | .error err => .ret h (some err)
      | .ok b =>
        .ret { SaltLength := h.SaltLength,
               HashFn := { alg := h.HashFn.alg, written := S ++ b },
               Hash := hex.EncodeToString (h.HashFn.alg (S ++ b)),
               Salt := hex.EncodeToString b } none := by
  unfold Generate
  rw [make_of_bounds h0 h1]
  simp only [List.length_replicate, hash.Hash.Reset, hash.Hash.Write, hash.Hash.Sum,
    List.nil_append]

/-- A `Generate` that returns was given a `SaltLength` within bounds. -/
theorem Generate_ret_bounds {h h1 : Hash} {S : GoString} {src : rand.Source}
    {err : Option Error} (hg : Generate h S src = .ret h1 err) :
    0 ≤ h.SaltLength ∧ h.SaltLength ≤ maxAlloc := by
  by_cases hb : h.SaltLength < 0 ∨ maxAlloc < h.SaltLength
  · rw [Generate_panic h S src hb] at hg
    cases hg
  · omega

/-- A successful `Generate` was given a non-negative `SaltLength` and a stream of
bytes, and wrote the fields as stated. -/
theorem Generate_ret_nil {h h1 : Hash} {S : GoString} {src : rand.Source}
    (hg : Generate h S src = .ret h1 none) :
    0 ≤ h.SaltLength ∧ ∃ stream, src = .bytes stream ∧
      h1 = { SaltLength := h.SaltLength,
             HashFn := { alg := h.HashFn.alg, written := S ++ rand.fill h.SaltLength.toNat stream },
             Hash := hex.EncodeToString
               (h.HashFn.alg (S ++ rand.fill h.SaltLength.toNat stream)),
             Salt := hex.EncodeToString (rand.fill h.SaltLength.toNat stream) } := by
  obtain ⟨h0, hm⟩ := Generate_ret_bounds hg
  rw [Generate_of_bounds h S src h0 hm] at hg
  refine ⟨h0, ?_⟩
  cases src with
  | fail code => simp [rand.Read] at hg
  | bytes stream =>
    refine ⟨stream, rfl, ?_⟩
    simp only [rand.Read, Outcome.ret.injEq, and_true] at hg
    exact hg.symm

/-- The error returned by `Check` when the stored salt decodes to `b`. -/
theorem Check_of_decode {h : Hash} {b : List Byte} (P : GoString)
    (hd : hex.DecodeString h.Salt = .ok b) :
    (Check h P).2 =
      if hex.EncodeToString (h.HashFn.alg (P ++ b)) = h.Hash then none
      else some .ErrIncorrect := by
  unfold Check
  simp only [hd, hash.Hash.Reset, hash.Hash.Write, hash.Hash.Sum, List.nil_append, ne_eq,
    ite_not]
  split <;> rfl

/-- The error returned by `Check` when the stored salt does not decode. -/
theorem Check_of_decode_error {h : Hash} {e : Error} (P : GoString)
    (hd : hex.DecodeString h.Salt = .error e) : (Check h P).2 = some e := by
  unfold Check
  simp only [hd]

/-- A `Generate` whose `SaltLength` is within bounds and whose random source delivers
the bytes of `stream` succeeds, and leaves this instance. -/
theorem Generate_bytes (h : Hash) (S : GoString) (stream : Nat → Byte)
    (hn : 0 ≤ h.SaltLength) (hm : h.SaltLength ≤ maxAlloc) :
    Generate h S (.bytes stream) =
      .ret { SaltLength := h.SaltLength,
             HashFn := { alg := h.HashFn.alg, written := S ++ rand.fill h.SaltLength.toNat stream },
             Hash := hex.EncodeToString
               (h.HashFn.alg (S ++ rand.fill h.SaltLength.toNat stream)),
             Salt := hex.EncodeToString (rand.fill h.SaltLength.toNat stream) } none := by
  rw [Generate_of_bounds h S _ hn hm]
  rfl

/-- The error returned by `Check(S')` on the instance left by a successful
`Generate(S)` that drew the bytes of `stream`. -/
theorem Check_Generate_eq {h h1 : Hash} {S : GoString} {stream : Nat → Byte} (T : GoString)
    (hg : Generate h S (.bytes stream) = .ret h1 none) :
    (Check h1 T).2 =
      if h.HashFn.alg (T ++ rand.fill h.SaltLength.toNat stream)
          = h.HashFn.alg (S ++ rand.fill h.SaltLength.toNat stream) then none
      else some .ErrIncorrect := by
  obtain ⟨_, stream1, hs, rfl⟩ := Generate_ret_nil hg
  cases hs
  rw [Check_of_decode T (hex.DecodeString_EncodeToString _)]
  by_cases hc : h.HashFn.alg (T ++ rand.fill h.SaltLength.toNat stream)
      = h.HashFn.alg (S ++ rand.fill h.SaltLength.toNat stream)
  · simp [hc]
  · have hne : ¬ hex.EncodeToString (h.HashFn.alg (T ++ rand.fill h.SaltLength.toNat stream))
        = hex.EncodeToString (h.HashFn.alg (S ++ rand.fill h.SaltLength.toNat stream)) :=
      fun he => hc (hex.EncodeToString_injective he)
    simp [hc, hne]

/-- The three ways `Check` can end: `nil`, `ErrIncorrect`, or a hex decode error. -/
theorem Check_returns (h : Hash) (P : GoString) :
    (Check h P).2 = none ∨ (Check h P).2 = some .ErrIncorrect ∨
      ∃ e, (Check h P).2 = some e ∧ e.isDecodeError = true := by
  cases hv : validHex h.Salt with
  | false =>
    obtain ⟨e, he, hde⟩ := hex.DecodeString_of_invalid hv
    exact Or.inr (Or.inr ⟨e, by unfold Check; simp only [he], hde⟩)
  | true =>
    obtain ⟨b, hb, _⟩ := hex.DecodeString_of_valid hv
    rw [Check_of_decode P hb]
    split
    · exact Or.inl rfl
    · exact Or.inr (Or.inl rfl)

/-- The error returned by `Check` depends on the stored `Hash`, the stored `Salt` and
the algorithm of the hash context only: neither on `SaltLength` nor on what the context
was fed before. -/
theorem Check_congr {h k : Hash} (P : GoString) (hH : h.Hash = k.Hash) (hS : h.Salt = k.Salt)
    (hA : h.HashFn.alg = k.HashFn.alg) : (Check h P).2 = (Check k P).2 := by
  unfold Check
  rw [hS]
  cases hd : hex.DecodeString k.Salt with
  | error e => rfl
  | ok b =>
    simp only [hash.Hash.Reset, hash.Hash.Write, hash.Hash.Sum, List.nil_append, hA, hH]
    split <;> rfl

/-- What `Generate` returns when the random source fails. -/
theorem Generate_fail (h : Hash) (S : GoString) (code : Nat) (hn : 0 ≤ h.SaltLength)
    (hm : h.SaltLength ≤ maxAlloc) :
    Generate h S (.fail code) = .ret h (some (.RandError code)) := by
  rw [Generate_of_bounds h S _ hn hm]
  rfl

/-- The fields left by a successful `Generate` for which the random source delivered
the bytes `b`. -/
theorem Generate_fields {h h1 : Hash} {S : GoString} {src : rand.Source} {b : List Byte}
    (hb : rand.Read h.SaltLength.toNat src = .ok b)
    (hg : Generate h S src = .ret h1 none) :
    h1.Salt = hex.EncodeToString b ∧ h1.Hash = hex.EncodeToString (h.HashFn.alg (S ++ b)) ∧
      h1.SaltLength = h.SaltLength ∧ h1.HashFn.alg = h.HashFn.alg := by
  obtain ⟨_, stream, rfl, rfl⟩ := Generate_ret_nil hg
  simp only [rand.Read, Except.ok.injEq] at hb
  subst hb
  exact ⟨rfl, rfl, rfl, rfl⟩

/-- A `Generate` that returns an error leaves the receiver as it was, and the error is
the one of the random source. -/
theorem Generate_ret_some {h h1 : Hash} {S : GoString} {src : rand.Source} {e : Error}
    (hg : Generate h S src = .ret h1 (some e)) :
    h1 = h ∧ rand.Read h.SaltLength.toNat src = .error e := by
  obtain ⟨h0, hm⟩ := Generate_ret_bounds hg
  rw [Generate_of_bounds h S src h0 hm] at hg
  split at hg
  · rename_i err hr
    cases hg
    exact ⟨rfl, hr⟩
  · cases hg

/-- A `Generate` that returns leaves the algorithm of the hash context and
`SaltLength` as they were. -/
theorem Generate_ret_frame {h h1 : Hash} {S : GoString} {src : rand.Source}
    {err : Option Error} (hg : Generate h S src = .ret h1 err) :
    h1.HashFn.alg = h.HashFn.alg ∧ h1.SaltLength = h.SaltLength := by
  obtain ⟨h0, hm⟩ := Generate_ret_bounds hg
  rw [Generate_of_bounds h S src h0 hm] at hg
  split at hg
  · cases hg; exact ⟨rfl, rfl⟩
  · cases hg; exact ⟨rfl, rfl⟩

/-- A `Check` leaves the algorithm of the hash context and `SaltLength` as they were. -/
theorem Check_alg (h : Hash) (P : GoString) :
    (Check h P).1.HashFn.alg = h.HashFn.alg ∧ (Check h P).1.SaltLength = h.SaltLength := by
  unfold Check
  split
  · exact ⟨rfl, rfl⟩
  · dsimp only
    split <;> exact ⟨rfl, rfl⟩

/-- No sequence of calls changes the algorithm of the hash context or `SaltLength`. -/
theorem UsedFrom_frame {h0 h : Hash} (hu : UsedFrom h0 h) :
    h.HashFn.alg = h0.HashFn.alg ∧ h.SaltLength = h0.SaltLength := by
  induction hu with
  | start => exact ⟨rfl, rfl⟩
  | generate h h1 S src err _ hg ih =>
    obtain ⟨ha, hl⟩ := Generate_ret_frame hg
    exact ⟨ha.trans ih.1, hl.trans ih.2⟩
  | check h P _ ih =>
    obtain ⟨ha, hl⟩ := Check_alg h P
    exact ⟨ha.trans ih.1, hl.trans ih.2⟩

/-- What `Generate` does with the bytes of a stream depends on `SaltLength` and the
algorithm of the hash context only. -/
theorem Generate_congr {h k : Hash} (S : GoString) (stream : Nat → Byte)
    (hL : h.SaltLength = k.SaltLength) (hA : h.HashFn.alg = k.HashFn.alg) :
    Generate h S (.bytes stream) = Generate k S (.bytes stream) := by
  by_cases hb : h.SaltLength < 0 ∨ maxAlloc < h.SaltLength
  · rw [Generate_panic h S _ hb, Generate_panic k S _ (hL ▸ hb)]
  · have hn : 0 ≤ h.SaltLength := by omega
    have hm : h.SaltLength ≤ maxAlloc := by omega
    rw [Generate_bytes h S stream hn hm, Generate_bytes k S stream (hL ▸ hn) (hL ▸ hm), hL, hA]

/-! ## The claims -/

/-- C1 (round trip): whatever the instance held before, whatever its `SaltLength` and
hash context, and whatever bytes the random source delivered, if `Generate(S)` returns
`nil` then `Check(S)` on the instance it left returns `nil`. -/
theorem roundtrip_Generate_Check (h h1 : Hash) (S : GoString) (src : rand.Source)
    (hg : Generate h S src = .ret h1 none) : (Check h1 S).2 = none := by
  obtain ⟨_, stream, _, rfl⟩ := Generate_ret_nil hg
  rw [Check_of_decode S (hex.DecodeString_EncodeToString _)]
  simp

/-- Witness of C1: the default instance, the password of the test, and a salt of the
sixteen bytes 0, 7, 14, ... -/
theorem roundtrip_Generate_Check_witness :
    Generate New testPassword (.bytes sevens) = .ret generated none ∧
      (Check generated testPassword).2 = none :=
  ⟨rfl, roundtrip_Generate_Check New generated testPassword (.bytes sevens) rfl⟩

/-- C2, counterexample: the claim fails on an instance whose `HashFn` is
`adler32.New()`, where after `Generate("aca")` the different password `"bab"` is
accepted by `Check`; and it fails on the default instance too, since SHA-256 cannot be
injective on the passwords followed by a fixed salt. -/
theorem negative_counterexample :
    (Generate adlerInstance (lit "aca") (.bytes sevens)
        = .ret ((Generate adlerInstance (lit "aca") (.bytes sevens)).receiver adlerInstance) none ∧
      lit "bab" ≠ lit "aca" ∧
      (Check ((Generate adlerInstance (lit "aca") (.bytes sevens)).receiver adlerInstance)
        (lit "bab")).2 = none) ∧
    ¬ (∀ (S T : GoString) (src : rand.Source) (h1 : Hash), T ≠ S →
        Generate New S src = .ret h1 none → (Check h1 T).2 = some .ErrIncorrect) := by
  refine ⟨⟨rfl, by decide, by decide⟩, fun hall => ?_⟩
  obtain ⟨x, y, hne, hxy⟩ := sha256.exists_collision (rand.fill New.SaltLength.toNat sevens)
  have hg := Generate_bytes New x sevens (by decide) (by decide)
  have h1 := hall x y (.bytes sevens) _ (Ne.symm hne) hg
  rw [Check_Generate_eq y hg] at h1
  have hxy1 : New.HashFn.alg (y ++ rand.fill New.SaltLength.toNat sevens)
      = New.HashFn.alg (x ++ rand.fill New.SaltLength.toNat sevens) := hxy.symm
  rw [if_pos hxy1] at h1
  cases h1

/-- C2, amended: after a successful `Generate(S)` that drew the salt bytes `b`,
`Check(T)` for a different `T` fails with `ErrIncorrect` exactly when the hash function
gives `T ++ b` a digest other than that of `S ++ b`, and returns `nil` when the two
digests collide; it returns no other error. -/
theorem negative_unless_collision (h h1 : Hash) (S T : GoString) (stream : Nat → Byte)
    (hne : T ≠ S) (hg : Generate h S (.bytes stream) = .ret h1 none) :
    ((Check h1 T).2 = some .ErrIncorrect ↔
        h.HashFn.alg (T ++ rand.fill h.SaltLength.toNat stream)
          ≠ h.HashFn.alg (S ++ rand.fill h.SaltLength.toNat stream)) ∧
      ((Check h1 T).2 = none ↔
        h.HashFn.alg (T ++ rand.fill h.SaltLength.toNat stream)
          = h.HashFn.alg (S ++ rand.fill h.SaltLength.toNat stream)) := by
  have _ := hne
  rw [Check_Generate_eq T hg]
  by_cases hc : h.HashFn.alg (T ++ rand.fill h.SaltLength.toNat stream)
      = h.HashFn.alg (S ++ rand.fill h.SaltLength.toNat stream)
  · simp [hc]
  · simp [hc]

/-- Witness of C2 amended: on the default instance, after `Generate` of the test's
password, `Check("wrong")` fails with `ErrIncorrect`, the two SHA-256 digests being
different. -/
theorem negative_unless_collision_witness :
    lit "wrong" ≠ testPassword ∧
      Generate New testPassword (.bytes sevens) = .ret generated none ∧
      sha256.Sum256 (lit "wrong" ++ rand.fill 16 sevens)
        ≠ sha256.Sum256 (testPassword ++ rand.fill 16 sevens) ∧
      (Check generated (lit "wrong")).2 = some .ErrIncorrect :=
  ⟨by decide, rfl, by decide!,
    ((negative_unless_collision New generated testPassword (lit "wrong") sevens (by decide)
      rfl).1).2 (by decide!)⟩

/-- C3 (an offline-computed pair verifies): for every password `S` and salt bytes `b`,
the checker built from the lowercase hex of SHA-256(`S ++ b`) and the lowercase hex of
`b` returns `nil` from `Check(S)`; the pair of `TestHash_Check` is such a pair, for
`S = "test"`, and `Check("test")` returns `nil` on it. -/
theorem Check_offline_pair (S : GoString) (b : List Byte) :
    (Check (NewChecker (hex.EncodeToString (sha256.Sum256 (S ++ b))) (hex.EncodeToString b))
        S).2 = none ∧
      (myHash = hex.EncodeToString (sha256.Sum256 (lit "test" ++ mySaltBytes)) ∧
        mySalt = hex.EncodeToString mySaltBytes ∧
        (Check (NewChecker myHash mySalt) (lit "test")).2 = none) := by
  refine ⟨?_, by decide!, by decide!, by decide!⟩
  have hd : hex.DecodeString (NewChecker (hex.EncodeToString (sha256.Sum256 (S ++ b)))
      (hex.EncodeToString b)).Salt = .ok b := hex.DecodeString_EncodeToString b
  rw [Check_of_decode S hd]
  exact if_pos rfl

/-- C4, counterexample: with the 62-character digest printed in the specification,
`Check("test")` does not return `nil`: it fails with `ErrIncorrect`. -/
theorem spec_vector_counterexample :
    (Check (NewChecker specDigest mySalt) (lit "test")).2 = some .ErrIncorrect ∧
      (Check (NewChecker specDigest mySalt) (lit "test")).2 ≠ none := by
  refine ⟨by decide!, by decide!⟩

/-- C4, amended: with the 64-character digest of the test (the specification's string
followed by `47`) and the salt `890c5970bb07262e`, `Check("test")` returns `nil` and
`Check("totallywrongpassword")` fails with `ErrIncorrect`; with the 62-character string
of the specification both fail with `ErrIncorrect`. -/
theorem spec_vector_amended :
    myHash = specDigest ++ lit "47" ∧
      (Check (NewChecker myHash mySalt) (lit "test")).2 = none ∧
      (Check (NewChecker myHash mySalt) (lit "totallywrongpassword")).2 = some .ErrIncorrect ∧
      (Check (NewChecker specDigest mySalt) (lit "test")).2 = some .ErrIncorrect ∧
      (Check (NewChecker specDigest mySalt) (lit "totallywrongpassword")).2
        = some .ErrIncorrect := by
  refine ⟨by decide!, by decide!, by decide!, by decide!, by decide!⟩

/-- C5 (malformed stored salt): whatever the stored hash and the plain text, `Check`
returns a hex decode error, which is neither `nil` nor `ErrIncorrect`, if and only if
the stored salt is not valid hexadecimal. -/
theorem Check_decode_error_iff (h : Hash) (P : GoString) :
    (∃ e, (Check h P).2 = some e ∧ e.isDecodeError = true ∧ e ≠ .ErrIncorrect
        ∧ (Check h P).2 ≠ none) ↔ validHex h.Salt = false := by
  constructor
  · rintro ⟨e, he, hde, _, _⟩
    cases hv : validHex h.Salt with
    | false => rfl
    | true =>
      obtain ⟨b, hb, _⟩ := hex.DecodeString_of_valid hv
      rw [Check_of_decode P hb] at he
      split at he
      · cases he
      · cases he; cases hde
  · intro hv
    obtain ⟨e, he, hde⟩ := hex.DecodeString_of_invalid hv
    have hc : (Check h P).2 = some e := by unfold Check; simp only [he]
    refine ⟨e, hc, hde, ?_, ?_⟩
    · rintro rfl; cases hde
    · rw [hc]; simp

/-- Witness of C5: the salt `zz` of the specification, and a salt of odd length. -/
theorem Check_decode_error_iff_witness :
    (validHex (lit "zz") = false ∧
      ∃ e, (Check (NewChecker myHash (lit "zz")) (lit "test")).2 = some e ∧
        e.isDecodeError = true ∧ e ≠ .ErrIncorrect ∧
        (Check (NewChecker myHash (lit "zz")) (lit "test")).2 ≠ none) ∧
    (validHex (lit "890") = false ∧
      ∃ e, (Check (NewChecker myHash (lit "890")) (lit "test")).2 = some e ∧
        e.isDecodeError = true ∧ e ≠ .ErrIncorrect ∧
        (Check (NewChecker myHash (lit "890")) (lit "test")).2 ≠ none) :=
  ⟨⟨by decide, (Check_decode_error_iff (NewChecker myHash (lit "zz")) (lit "test")).mpr
      (by decide)⟩,
    ⟨by decide, (Check_decode_error_iff (NewChecker myHash (lit "890")) (lit "test")).mpr
      (by decide)⟩⟩

/-- C6 (outcome of `Check`): when the stored salt hex-decodes to `b`, `Check(P)` returns
`nil` exactly when the lowercase hex encoding of the digest of `P ++ b` is the stored
`Hash`, character for character, and `ErrIncorrect` exactly when it is not; so a stored
`Hash` written with an upper-case letter `A-F` is rejected with `ErrIncorrect`, also
when it denotes the right digest bytes. -/
theorem Check_outcome (h : Hash) (P : GoString) (b : List Byte)
    (hd : hex.DecodeString h.Salt = .ok b) :
    ((Check h P).2 = none ↔ hex.EncodeToString (h.HashFn.alg (P ++ b)) = h.Hash) ∧
      ((Check h P).2 = some .ErrIncorrect ↔
        hex.EncodeToString (h.HashFn.alg (P ++ b)) ≠ h.Hash) ∧
      ((∃ c ∈ h.Hash, 65 ≤ c.val ∧ c.val ≤ 70) → (Check h P).2 = some .ErrIncorrect) := by
  rw [Check_of_decode P hd]
  by_cases hc : hex.EncodeToString (h.HashFn.alg (P ++ b)) = h.Hash
  · refine ⟨by simp [hc], by simp [hc], ?_⟩
    rintro ⟨c, hmem, h1, h2⟩
    have hall := hex.EncodeToString_all_lower (h.HashFn.alg (P ++ b))
    rw [hc, List.all_eq_true] at hall
    have hl := hall c hmem
    simp only [isLowerHexChar, Bool.or_eq_true, Bool.and_eq_true, decide_eq_true_eq] at hl
    omega
  · exact ⟨by simp [hc], by simp [hc], fun _ => by simp [hc]⟩

/-- Witness of C6: the salt of the test decodes to its eight bytes; the stored hash of
the test is accepted for `"test"`, and the same hash in upper case, which denotes the
same 32 digest bytes, is rejected with `ErrIncorrect`. -/
theorem Check_outcome_witness :
    hex.DecodeString mySalt = .ok mySaltBytes ∧
      (Check (NewChecker myHash mySalt) (lit "test")).2 = none ∧
      hex.DecodeString upperHash = .ok (sha256.Sum256 (lit "test" ++ mySaltBytes)) ∧
      (Check (NewChecker upperHash mySalt) (lit "test")).2 = some .ErrIncorrect :=
  ⟨by decide,
    ((Check_outcome (NewChecker myHash mySalt) (lit "test") mySaltBytes (by decide)).1).2
      (by decide!),
    by decide!,
    ((Check_outcome (NewChecker upperHash mySalt) (lit "test") mySaltBytes (by decide)).2).2
      ⟨70, by decide, by decide, by decide⟩⟩

/-- C7 (result of `Generate`): whatever `Hash` and `Salt` held before, after a
successful `Generate(S)` for which the random source delivered the bytes `b`, `Salt` is
the lowercase hex encoding of `b` and `Hash` is the lowercase hex encoding of the digest
of the bytes of `S` followed by `b`. -/
theorem Generate_result (h h1 : Hash) (S : GoString) (src : rand.Source) (b : List Byte)
    (hb : rand.Read h.SaltLength.toNat src = .ok b)
    (hg : Generate h S src = .ret h1 none) :
    h1.Salt = hex.EncodeToString b ∧
      h1.Hash = hex.EncodeToString (h.HashFn.alg (S ++ b)) ∧
      validLowerHex h1.Salt = true ∧ validLowerHex h1.Hash = true := by
  obtain ⟨_, stream, rfl, rfl⟩ := Generate_ret_nil hg
  simp only [rand.Read, Except.ok.injEq] at hb
  subst hb
  exact ⟨rfl, rfl, hex.EncodeToString_validLowerHex _, hex.EncodeToString_validLowerHex _⟩

/-- Witness of C7: on the default instance with the sixteen salt bytes 0, 7, 14, ...;
there the digest with the salt fed first is a different one. -/
theorem Generate_result_witness :
    (rand.Read New.SaltLength.toNat (.bytes sevens) = .ok (rand.fill 16 sevens) ∧
      Generate New testPassword (.bytes sevens) = .ret generated none) ∧
    (generated.Salt = hex.EncodeToString (rand.fill 16 sevens) ∧
      generated.Hash
        = hex.EncodeToString (sha256.Sum256 (testPassword ++ rand.fill 16 sevens)) ∧
      validLowerHex generated.Salt = true ∧ validLowerHex generated.Hash = true) ∧
    generated.Hash ≠ hex.EncodeToString (sha256.Sum256 (rand.fill 16 sevens ++ testPassword)) :=
  ⟨⟨rfl, rfl⟩,
    Generate_result New generated testPassword (.bytes sevens) (rand.fill 16 sevens) rfl rfl,
    by decide!⟩

/-- C8 (salt length contract): after a successful `Generate` on an instance with
`SaltLength = n`, which is then not negative, `Salt` hex-decodes without error to
exactly `n` bytes and has exactly `2 * n` characters, 32 of them for the default
`SaltLength`. -/
theorem Generate_salt_length (h h1 : Hash) (S : GoString) (src : rand.Source)
    (hg : Generate h S src = .ret h1 none) :
    0 ≤ h.SaltLength ∧
      (∃ b, hex.DecodeString h1.Salt = .ok b ∧ (b.length : Int) = h.SaltLength) ∧
      (h1.Salt.length : Int) = 2 * h.SaltLength ∧
      (h.SaltLength = DefaultSaltLength → h1.Salt.length = 32) := by
  obtain ⟨hn, stream, rfl, rfl⟩ := Generate_ret_nil hg
  have hlen : ((rand.fill h.SaltLength.toNat stream).length : Int) = h.SaltLength := by
    rw [rand.fill_length]; exact Int.toNat_of_nonneg hn
  refine ⟨hn, ⟨_, hex.DecodeString_EncodeToString _, hlen⟩, ?_, ?_⟩
  · simp only [hex.EncodeToString_length, Nat.cast_mul, Nat.cast_ofNat, hlen]
  · intro hdef
    simp only [hex.EncodeToString_length, rand.fill_length, hdef, DefaultSaltLength]
    rfl

/-- Witness of C8: the default instance, whose generated salt has 32 characters and
decodes to 16 bytes. -/
theorem Generate_salt_length_witness :
    Generate New testPassword (.bytes sevens) = .ret generated none ∧
      ((0 : Int) ≤ New.SaltLength ∧
        (∃ b, hex.DecodeString generated.Salt = .ok b ∧ (b.length : Int) = New.SaltLength) ∧
        (generated.Salt.length : Int) = 2 * New.SaltLength ∧
        (New.SaltLength = DefaultSaltLength → generated.Salt.length = 32)) :=
  ⟨rfl, Generate_salt_length New generated testPassword (.bytes sevens) rfl⟩

/-- C9, counterexample: `NewChecker("ZZ", "xyz")` is reachable, its `Salt` and `Hash`
are populated, and neither is a valid lowercase hexadecimal string of even length. -/
theorem hex_invariant_counterexample :
    Reachable (fun _ _ => True) (NewChecker (lit "ZZ") (lit "xyz")) ∧
      (NewChecker (lit "ZZ") (lit "xyz")).Salt ≠ [] ∧
      (NewChecker (lit "ZZ") (lit "xyz")).Hash ≠ [] ∧
      validLowerHex (NewChecker (lit "ZZ") (lit "xyz")).Salt = false ∧
      validLowerHex (NewChecker (lit "ZZ") (lit "xyz")).Hash = false :=
  ⟨Reachable.newChecker _ _ trivial, by decide, by decide, by decide, by decide⟩

/-- C9, amended: in every instance reachable through `New`, `Generate`, `Check`, and
`NewChecker` called with two valid lowercase hexadecimal strings of even length, the
`Salt` and `Hash` fields are valid lowercase hexadecimal strings of even length. -/
theorem hex_invariant (h : Hash)
    (hr : Reachable (fun hash salt => validLowerHex hash = true ∧ validLowerHex salt = true) h) :
    validLowerHex h.Salt = true ∧ validLowerHex h.Hash = true := by
  induction hr with
  | new => exact ⟨rfl, rfl⟩
  | newChecker hash salt hargs => exact ⟨hargs.2, hargs.1⟩
  | generate h h1 S src err _ hg ih =>
    cases err with
    | none =>
      obtain ⟨_, stream, rfl, rfl⟩ := Generate_ret_nil hg
      exact ⟨hex.EncodeToString_validLowerHex _, hex.EncodeToString_validLowerHex _⟩
    | some e =>
      have hh : h1 = h := (Generate_ret_some hg).1
      rw [hh]; exact ih
  | check h P _ ih =>
    have hs : (Check h P).1.Salt = h.Salt ∧ (Check h P).1.Hash = h.Hash := by
      unfold Check
      split
      · exact ⟨rfl, rfl⟩
      · dsimp only; split <;> exact ⟨rfl, rfl⟩
    rw [hs.1, hs.2]; exact ih

/-- Witness of C9 amended: the instance of the test's checker after a `Generate` and a
`Check`. -/
theorem hex_invariant_witness :
    Reachable (fun hash salt => validLowerHex hash = true ∧ validLowerHex salt = true)
        (Check ((Generate (NewChecker myHash mySalt) testPassword (.bytes sevens)).receiver
          New) (lit "test")).1 ∧
      validLowerHex (Check ((Generate (NewChecker myHash mySalt) testPassword
        (.bytes sevens)).receiver New) (lit "test")).1.Salt = true ∧
      validLowerHex (Check ((Generate (NewChecker myHash mySalt) testPassword
        (.bytes sevens)).receiver New) (lit "test")).1.Hash = true :=
  ⟨Reachable.check _ _
      (Reachable.generate (NewChecker myHash mySalt) _ testPassword (.bytes sevens) none
        (Reachable.newChecker myHash mySalt ⟨by decide, by decide⟩) rfl),
    hex_invariant _
      (Reachable.check _ _
        (Reachable.generate (NewChecker myHash mySalt) _ testPassword (.bytes sevens) none
          (Reachable.newChecker myHash mySalt ⟨by decide, by decide⟩) rfl))⟩

/-- C10 (`Check` is read-only on the stored data): whatever `Check` returns, which is
`nil`, `ErrIncorrect` or a decode error, the `Hash`, `Salt` and `SaltLength` fields
after the call are those before it, and so is the algorithm of the hash context; only
what the context has been fed may change. -/
theorem Check_frame (h : Hash) (P : GoString) :
    ((Check h P).1.Hash = h.Hash ∧ (Check h P).1.Salt = h.Salt ∧
      (Check h P).1.SaltLength = h.SaltLength ∧
      (Check h P).1.HashFn.alg = h.HashFn.alg) ∧
    ((Check h P).2 = none ∨ (Check h P).2 = some .ErrIncorrect ∨
      ∃ e, (Check h P).2 = some e ∧ e.isDecodeError = true) := by
  refine ⟨?_, Check_returns h P⟩
  unfold Check
  split
  · exact ⟨rfl, rfl, rfl, rfl⟩
  · dsimp only
    split <;> exact ⟨rfl, rfl, rfl, rfl⟩

/-- C11, counterexample: with a random source that fails, `Generate` on an instance
whose `SaltLength` is -1, and on one whose `SaltLength` is `1 << 62`, does not return
the error of the source: `make` panics before the source is read. -/
theorem Generate_rand_failure_counterexample :
    (rand.Read negativeSalt.SaltLength.toNat (.fail 5) = .error (.RandError 5) ∧
      Generate negativeSalt testPassword (.fail 5) = .panic ∧
      Generate negativeSalt testPassword (.fail 5)
        ≠ .ret negativeSalt (some (.RandError 5))) ∧
    (rand.Read hugeSalt.SaltLength.toNat (.fail 5) = .error (.RandError 5) ∧
      Generate hugeSalt testPassword (.fail 5) = .panic ∧
      Generate hugeSalt testPassword (.fail 5) ≠ .ret hugeSalt (some (.RandError 5))) := by
  have h1 : Generate negativeSalt testPassword (.fail 5) = .panic :=
    Generate_panic _ _ _ (Or.inl (by decide))
  have h2 : Generate hugeSalt testPassword (.fail 5) = .panic :=
    Generate_panic _ _ _ (Or.inr (by decide))
  refine ⟨⟨rfl, h1, ?_⟩, ⟨rfl, h2, ?_⟩⟩
  · rw [h1]; intro h; cases h
  · rw [h2]; intro h; cases h

/-- C11, amended: for every instance and plain text, if the random source fails with
the error `e` then, when `make([]byte, SaltLength)` yields a buffer, which is when
`SaltLength` is neither negative nor above `maxAlloc`, `Generate` returns exactly `e`,
which is neither `nil` nor `ErrIncorrect`, and leaves the receiver as it was, `Hash`,
`Salt` and the hash context keeping their values; otherwise `make` panics and
`Generate` returns nothing. -/
theorem Generate_rand_failure (h : Hash) (S : GoString) (src : rand.Source) (e : Error)
    (hr : rand.Read h.SaltLength.toNat src = .error e) :
    (0 ≤ h.SaltLength ∧ h.SaltLength ≤ maxAlloc → Generate h S src = .ret h (some e)) ∧
      (h.SaltLength < 0 ∨ maxAlloc < h.SaltLength → Generate h S src = .panic) ∧
      (make h.SaltLength = none ↔ h.SaltLength < 0 ∨ maxAlloc < h.SaltLength) ∧
      some e ≠ none ∧ e ≠ .ErrIncorrect := by
  cases src with
  | bytes stream => simp [rand.Read] at hr
  | fail code =>
    simp only [rand.Read, Except.error.injEq] at hr
    subst hr
    refine ⟨fun hb => Generate_fail h S code hb.1 hb.2, Generate_panic h S _, ?_, by simp,
      by simp⟩
    constructor
    · intro hm
      by_contra hb
      rw [make_of_bounds (by omega) (by omega)] at hm
      cases hm
    · exact make_none

/-- Witness of C11 amended: the instance `used`, whose fields are populated and whose
context has been fed, with a random source failing with code 5. -/
theorem Generate_rand_failure_witness :
    (rand.Read used.SaltLength.toNat (.fail 5) = .error (.RandError 5) ∧
      (0 : Int) ≤ used.SaltLength ∧ used.SaltLength ≤ maxAlloc) ∧
    Generate used testPassword (.fail 5) = .ret used (some (.RandError 5)) ∧
    Generate negativeSalt testPassword (.fail 5) = .panic :=
  ⟨⟨rfl, by decide!, by decide!⟩,
    (Generate_rand_failure used testPassword (.fail 5) (.RandError 5) rfl).1
      ⟨by decide!, by decide!⟩,
    (Generate_rand_failure negativeSalt testPassword (.fail 5) (.RandError 5) rfl).2.1
      (Or.inl (by decide))⟩

/-- C12 (defaults of `New`): the instance returned by `New()` has `Hash = ""`,
`Salt = ""`, `SaltLength = DefaultSaltLength = 16` and a fresh SHA-256 context, one
that has been fed nothing and whose sum is the SHA-256 digest of the empty message. -/
theorem New_defaults :
    New.Hash = [] ∧ New.Salt = [] ∧ New.SaltLength = DefaultSaltLength ∧
      DefaultSaltLength = 16 ∧ New.HashFn = sha256.New ∧ New.HashFn.written = [] ∧
      hex.EncodeToString (New.HashFn.Sum [])
        = lit "e3b0c44298fc1c149afbf4c8996fb92427ae41e4649b934ca495991b7852b855" :=
  ⟨rfl, rfl, rfl, rfl, rfl, rfl, by decide!⟩

/-- C13 (`NewChecker` stores its arguments verbatim): for all strings `hash` and
`salt`, hexadecimal or not, `NewChecker(hash, salt)` is an instance with `Hash = hash`,
`Salt = salt`, `SaltLength = DefaultSaltLength` and a fresh SHA-256 context; being a
total function, it has no failure case. -/
theorem NewChecker_verbatim (hash salt : GoString) :
    (NewChecker hash salt).Hash = hash ∧ (NewChecker hash salt).Salt = salt ∧
      (NewChecker hash salt).SaltLength = DefaultSaltLength ∧
      (NewChecker hash salt).HashFn = sha256.New ∧
      (NewChecker hash salt).HashFn.written = [] ∧
      (validHex (lit "not hex") = false ∧
        (NewChecker (lit "zz") (lit "not hex")).Hash = lit "zz" ∧
        (NewChecker (lit "zz") (lit "not hex")).Salt = lit "not hex") :=
  ⟨rfl, rfl, rfl, rfl, rfl, by decide, rfl, rfl⟩

/-- C14, counterexample: on the checker of `TestHash_Check` the password `"test"`
matches, the recomputed hex digest being the stored `Hash`, and the error returned by
`Check` is `nil`: it does not satisfy `err != nil`. -/
theorem Check_doc_counterexample :
    hex.DecodeString (NewChecker myHash mySalt).Salt = .ok mySaltBytes ∧
      hex.EncodeToString ((NewChecker myHash mySalt).HashFn.alg (lit "test" ++ mySaltBytes))
        = (NewChecker myHash mySalt).Hash ∧
      ¬ ((Check (NewChecker myHash mySalt) (lit "test")).2 ≠ none) := by
  refine ⟨by decide, by decide!, by decide!⟩

/-- C14, amended: for every checker and plain text, `Check` returns `nil`
(`err == nil`) exactly when the password matches, the stored salt decoding to some `b`
and the recomputed hex digest of `P ++ b` being the stored `Hash`; it returns
`ErrIncorrect` exactly when the salt decodes and the digest is not the stored `Hash`;
and it returns any other error exactly when that error is the decode error of the
stored salt.  So `err != nil` means failure. -/
theorem Check_match_nil (h : Hash) (P : GoString) :
    ((Check h P).2 = none ↔
        ∃ b, hex.DecodeString h.Salt = .ok b ∧
          hex.EncodeToString (h.HashFn.alg (P ++ b)) = h.Hash) ∧
      ((Check h P).2 = some .ErrIncorrect ↔
        ∃ b, hex.DecodeString h.Salt = .ok b ∧
          hex.EncodeToString (h.HashFn.alg (P ++ b)) ≠ h.Hash) ∧
      (∀ e : Error, e ≠ .ErrIncorrect →
        ((Check h P).2 = some e ↔ hex.DecodeString h.Salt = .error e)) := by
  cases hd : hex.DecodeString h.Salt with
  | ok b =>
    rw [Check_of_decode P hd]
    by_cases hm : hex.EncodeToString (h.HashFn.alg (P ++ b)) = h.Hash
    · rw [if_pos hm]
      refine ⟨?_, ?_, ?_⟩
      · exact ⟨fun _ => ⟨b, rfl, hm⟩, fun _ => rfl⟩
      · constructor
        · intro hc
          cases hc
        · rintro ⟨c, hc, hne⟩
          cases hc
          exact absurd hm hne
      · intro e _
        constructor
        · intro hc
          cases hc
        · intro hc
          cases hc
    · rw [if_neg hm]
      refine ⟨?_, ?_, ?_⟩
      · constructor
        · intro hc
          cases hc
        · rintro ⟨c, hc, heq⟩
          cases hc
          exact absurd heq hm
      · exact ⟨fun _ => ⟨b, rfl, hm⟩, fun _ => rfl⟩
      · intro e he
        constructor
        · intro hc
          injection hc with hc
          exact absurd hc.symm he
        · intro hc
          cases hc
  | error e0 =>
    rw [Check_of_decode_error P hd]
    have hde := hex.DecodeString_error hd
    refine ⟨?_, ?_, ?_⟩
    · constructor
      · intro hc
        cases hc
      · rintro ⟨c, hc, _⟩
        cases hc
    · constructor
      · intro hc
        injection hc with hc
        subst hc
        exact absurd hde (by decide)
      · rintro ⟨c, hc, _⟩
        cases hc
    · intro e _
      constructor
      · intro hc
        injection hc with hc
        rw [hc]
      · intro hc
        injection hc with hc
        rw [hc]

/-- Witness of C14 amended: the instance left by `Generate` on the test's password
returns `nil` for that password, `ErrIncorrect` for another one, and a checker with the
salt `zz` returns the decode error. -/
theorem Check_match_nil_witness :
    (Check generated testPassword).2 = none ∧
      (Check generated (lit "wrong")).2 = some .ErrIncorrect ∧
      (Check (NewChecker myHash (lit "zz")) (lit "test")).2 = some (.InvalidByteError 122) :=
  ⟨((Check_match_nil generated testPassword).1).mpr
      ⟨rand.fill 16 sevens, by decide!, by decide!⟩,
    ((Check_match_nil generated (lit "wrong")).2.1).mpr
      ⟨rand.fill 16 sevens, by decide!, by decide!⟩,
    ((Check_match_nil (NewChecker myHash (lit "zz")) (lit "test")).2.2
      (.InvalidByteError 122) (by decide)).mpr (by decide)⟩

/-- C15, counterexample: with `HashFn = adler32.New()`, two successive `Generate("pw")`
calls whose draws are different byte strings leave different `Salt` values and the same
`Hash` value; and with SHA-256 and `SaltLength = 33` the claim fails as well, there
being more salts than digests. -/
theorem salt_uniqueness_counterexample :
    (Generate adlerInstance (lit "pw") (.bytes (rand.streamOf [0, 2, 0])) = .ret adlerFirst none ∧
      Generate adlerFirst (lit "pw") (.bytes (rand.streamOf [1, 0, 1])) = .ret adlerSecond none ∧
      rand.fill 16 (rand.streamOf [0, 2, 0]) ≠ rand.fill 16 (rand.streamOf [1, 0, 1]) ∧
      adlerFirst.Salt ≠ adlerSecond.Salt ∧
      adlerFirst.Hash = adlerSecond.Hash) ∧
    ¬ (∀ (S : GoString) (s1 s2 : Nat → Byte) (h1 h2 : Hash),
        rand.fill 33 s1 ≠ rand.fill 33 s2 →
        Generate longSalt S (.bytes s1) = .ret h1 none →
        Generate h1 S (.bytes s2) = .ret h2 none → h1.Hash ≠ h2.Hash) := by
  refine ⟨⟨rfl, rfl, by decide, by decide, by decide⟩, fun hall => ?_⟩
  obtain ⟨b, c, hb, hc, hne, heq⟩ := sha256.exists_salt_collision []
  have hfb : rand.fill 33 (rand.streamOf b) = b := hb ▸ rand.fill_streamOf b
  have hfc : rand.fill 33 (rand.streamOf c) = c := hc ▸ rand.fill_streamOf c
  have hn : (0 : Int) ≤ longSalt.SaltLength := by decide
  have hm : longSalt.SaltLength ≤ maxAlloc := by decide
  have hg1 := Generate_bytes longSalt [] (rand.streamOf b) hn hm
  have hcon := hall [] (rand.streamOf b) (rand.streamOf c) _ _ (by rw [hfb, hfc]; exact hne)
    hg1 (Generate_bytes _ [] (rand.streamOf c) hn hm)
  apply hcon
  show hex.EncodeToString (sha256.Sum256 ([] ++ rand.fill 33 (rand.streamOf b)))
    = hex.EncodeToString (sha256.Sum256 ([] ++ rand.fill 33 (rand.streamOf c)))
  rw [hfb, hfc, heq]

/-- C15, amended: two successful `Generate(S)` calls with the same hash algorithm
whose random draws `b1` and `b2` are different byte strings leave different `Salt`
values; their `Hash` values are different exactly when the hash function gives
`S ++ b1` and `S ++ b2` different digests. -/
theorem salt_uniqueness (h k h1 k1 : Hash) (S : GoString) (src1 src2 : rand.Source)
    (b1 b2 : List Byte) (hA : k.HashFn.alg = h.HashFn.alg)
    (hb1 : rand.Read h.SaltLength.toNat src1 = .ok b1)
    (hb2 : rand.Read k.SaltLength.toNat src2 = .ok b2)
    (hg1 : Generate h S src1 = .ret h1 none) (hg2 : Generate k S src2 = .ret k1 none)
    (hne : b1 ≠ b2) :
    h1.Salt ≠ k1.Salt ∧
      (h1.Hash ≠ k1.Hash ↔ h.HashFn.alg (S ++ b1) ≠ h.HashFn.alg (S ++ b2)) := by
  obtain ⟨hs1, hh1, _, _⟩ := Generate_fields hb1 hg1
  obtain ⟨hs2, hh2, _, _⟩ := Generate_fields hb2 hg2
  rw [hs1, hs2, hh1, hh2, hA]
  refine ⟨fun he => hne (hex.EncodeToString_injective he), ?_⟩
  constructor
  · intro hd hd2
    exact hd (congrArg hex.EncodeToString hd2)
  · intro hd he
    exact hd (hex.EncodeToString_injective he)

/-- Witness of C15 amended: two successive `Generate` calls on the default instance,
the first drawing 0, 7, 14, ... and the second 1, 0, 1, 0, ...: the salts differ, and so
do the hashes, the two SHA-256 digests being different. -/
theorem salt_uniqueness_witness :
    (generated.HashFn.alg = New.HashFn.alg ∧
      rand.Read New.SaltLength.toNat (.bytes sevens) = .ok (rand.fill 16 sevens) ∧
      rand.Read generated.SaltLength.toNat (.bytes (rand.streamOf [1, 0, 1]))
        = .ok (rand.fill 16 (rand.streamOf [1, 0, 1])) ∧
      Generate New testPassword (.bytes sevens) = .ret generated none ∧
      Generate generated testPassword (.bytes (rand.streamOf [1, 0, 1]))
        = .ret ((Generate generated testPassword
            (.bytes (rand.streamOf [1, 0, 1]))).receiver generated) none ∧
      rand.fill 16 sevens ≠ rand.fill 16 (rand.streamOf [1, 0, 1])) ∧
    (generated.Salt ≠ ((Generate generated testPassword
          (.bytes (rand.streamOf [1, 0, 1]))).receiver generated).Salt ∧
      (generated.Hash ≠ ((Generate generated testPassword
          (.bytes (rand.streamOf [1, 0, 1]))).receiver generated).Hash ↔
        New.HashFn.alg (testPassword ++ rand.fill 16 sevens)
          ≠ New.HashFn.alg (testPassword ++ rand.fill 16 (rand.streamOf [1, 0, 1])))) ∧
    generated.Hash ≠ ((Generate generated testPassword
          (.bytes (rand.streamOf [1, 0, 1]))).receiver generated).Hash :=
  ⟨⟨rfl, rfl, rfl, rfl, rfl, by decide⟩,
    salt_uniqueness New generated generated _ testPassword (.bytes sevens)
      (.bytes (rand.streamOf [1, 0, 1])) (rand.fill 16 sevens)
      (rand.fill 16 (rand.streamOf [1, 0, 1])) rfl rfl rfl rfl rfl (by decide),
    by decide!⟩

/-- C16 (reuse independence): on an instance `h` that has been used for any sequence
of `Generate` and `Check` calls since `h0`, `Check(P)` returns what it returns on a
fresh instance holding the same `Hash`, `Salt` and `SaltLength`, and `Generate(S)`, for
a given random draw, ends as it does on the fresh instance, with the same `Hash` and
`Salt` written: nothing fed in earlier calls reaches a later digest. -/
theorem reuse_independence (h0 h : Hash) (hu : UsedFrom h0 h) (P S : GoString)
    (stream : Nat → Byte) :
    (Check h P).2 = (Check (freshLike h0 h) P).2 ∧
      Generate h S (.bytes stream) = Generate (freshLike h0 h) S (.bytes stream) :=
  ⟨Check_congr P rfl rfl (UsedFrom_frame hu).1,
    Generate_congr S stream rfl (UsedFrom_frame hu).1⟩

/-- Witness of C16: the instance `used`, obtained from `New()` by a `Generate` and a
`Check`, whose context holds the bytes fed by that `Check`. -/
theorem reuse_independence_witness :
    (UsedFrom New used ∧ used.HashFn.written ≠ [] ∧ (freshLike New used).HashFn.written = []) ∧
    ((Check used testPassword).2 = (Check (freshLike New used) testPassword).2 ∧
      Generate used (lit "pw") (.bytes sevens)
        = Generate (freshLike New used) (lit "pw") (.bytes sevens)) ∧
    (Check used testPassword).2 = none :=
  ⟨⟨UsedFrom.check generated (lit "wrong")
      (UsedFrom.generate New generated testPassword (.bytes sevens) none UsedFrom.start rfl),
      by decide!, rfl⟩,
    reuse_independence New used
      (UsedFrom.check generated (lit "wrong")
        (UsedFrom.generate New generated testPassword (.bytes sevens) none UsedFrom.start rfl))
      testPassword (lit "pw") sevens,
    by decide!⟩

/-- C17 (`SaltLength` does not constrain verification): two instances that agree on
`Hash`, `Salt` and the hash function, whatever their `SaltLength` values, return the
same result from `Check`; the checker of `TestHash_Check` has `SaltLength` 16, a stored
salt that decodes to 8 bytes, and accepts `"test"`. -/
theorem SaltLength_irrelevant (P : GoString) :
    (∀ h k : Hash, h.Hash = k.Hash → h.Salt = k.Salt → h.HashFn = k.HashFn →
      (Check h P).2 = (Check k P).2) ∧
    ((NewChecker myHash mySalt).SaltLength = 16 ∧
      hex.DecodeString (NewChecker myHash mySalt).Salt = .ok mySaltBytes ∧
      mySaltBytes.length = 8 ∧
      (Check (NewChecker myHash mySalt) (lit "test")).2 = none) :=
  ⟨fun _ _ hH hS hF => Check_congr P hH hS (congrArg hash.Hash.alg hF),
    rfl, by decide, rfl, by decide!⟩

/-- Witness of C17: the checker of the test, and the same checker with `SaltLength` 8
and with `SaltLength` 1000. -/
theorem SaltLength_irrelevant_witness :
    (NewChecker myHash mySalt).SaltLength
        ≠ ({ NewChecker myHash mySalt with SaltLength := 8 } : Hash).SaltLength ∧
      (Check (NewChecker myHash mySalt) (lit "test")).2
        = (Check { NewChecker myHash mySalt with SaltLength := 8 } (lit "test")).2 ∧
      (Check (NewChecker myHash mySalt) (lit "test")).2
        = (Check { NewChecker myHash mySalt with SaltLength := 1000 } (lit "test")).2 :=
  ⟨by decide,
    (SaltLength_irrelevant (lit "test")).1 _ _ rfl rfl rfl,
    (SaltLength_irrelevant (lit "test")).1 _ _ rfl rfl rfl⟩

/-- C18 (an unpopulated instance never verifies): for every plain text `P`, `Check(P)`
on the instance returned by `New()` returns `ErrIncorrect`; and on every checker with
the SHA-256 algorithm whose `Salt` is valid hexadecimal and whose stored `Hash` does not
have exactly 64 characters, `Check(P)` returns `ErrIncorrect`. -/
theorem Check_unpopulated (P : GoString) :
    (Check New P).2 = some .ErrIncorrect ∧
      ∀ h : Hash, h.HashFn.alg = sha256.Sum256 → validHex h.Salt = true →
        h.Hash.length ≠ 64 → (Check h P).2 = some .ErrIncorrect := by
  have key : ∀ h : Hash, h.HashFn.alg = sha256.Sum256 → validHex h.Salt = true →
      h.Hash.length ≠ 64 → (Check h P).2 = some .ErrIncorrect := by
    intro h hA hv hl
    obtain ⟨b, hb, _⟩ := hex.DecodeString_of_valid hv
    rw [Check_of_decode P hb, hA]
    have hne : hex.EncodeToString (sha256.Sum256 (P ++ b)) ≠ h.Hash := by
      intro he
      apply hl
      rw [← he, hex.EncodeToString_length, sha256.Sum256_length]
    rw [if_neg hne]
  exact ⟨key New rfl rfl (by decide), key⟩

/-- Witness of C18: the checker holding the 62-character digest of the specification,
for the password `"test"`. -/
theorem Check_unpopulated_witness :
    ((NewChecker specDigest mySalt).HashFn.alg = sha256.Sum256 ∧
      validHex (NewChecker specDigest mySalt).Salt = true ∧
      (NewChecker specDigest mySalt).Hash.length ≠ 64) ∧
    (Check (NewChecker specDigest mySalt) (lit "test")).2 = some .ErrIncorrect ∧
    (Check New (lit "test")).2 = some .ErrIncorrect :=
  ⟨⟨rfl, by decide, by decide⟩,
    (Check_unpopulated (lit "test")).2 (NewChecker specDigest mySalt) rfl (by decide)
      (by decide),
    (Check_unpopulated (lit "test")).1⟩

/-- C19 (salt decoding is case-insensitive): for every checker, and so for every
checker with a valid-hex `Salt`, and every plain text, replacing any of the letters
`a-f` in `Salt` by their upper-case forms does not change the result of `Check`. -/
theorem Check_salt_case (h : Hash) (P : GoString) (sel : Nat → Bool) :
    (Check { h with Salt := upperAt sel h.Salt } P).2 = (Check h P).2 := by
  have hd : hex.DecodeString (upperAt sel h.Salt) = hex.DecodeString h.Salt :=
    hex.DecodeString_upperAt h.Salt.length h.Salt sel le_rfl
  unfold Check
  simp only [hd]
  cases hex.DecodeString h.Salt with
  | error e => rfl
  | ok b =>
    simp only [hash.Hash.Reset, hash.Hash.Write, hash.Hash.Sum, List.nil_append]
    split <;> rfl

/-- Witness of C19: the salt of the test with all its letters, and with every other
character, in upper case is accepted for `"test"` as the original is, while the stored
hash in upper case is not. -/
theorem Check_salt_case_witness :
    (validHex (NewChecker myHash mySalt).Salt = true ∧
      upperAt (fun _ => true) mySalt = lit "890C5970BB07262E" ∧
      upperAt (fun i => i % 2 == 1) mySalt = lit "890C5970bB07262E") ∧
    ((Check { NewChecker myHash mySalt with Salt := upperAt (fun _ => true) mySalt }
        (lit "test")).2 = (Check (NewChecker myHash mySalt) (lit "test")).2 ∧
      (Check { NewChecker myHash mySalt with Salt := upperAt (fun i => i % 2 == 1) mySalt }
        (lit "test")).2 = (Check (NewChecker myHash mySalt) (lit "test")).2) ∧
    ((Check (NewChecker myHash mySalt) (lit "test")).2 = none ∧
      (Check (NewChecker myHash (lit "890C5970BB07262E")) (lit "test")).2 = none ∧
      (Check (NewChecker upperHash mySalt) (lit "test")).2 = some .ErrIncorrect) :=
  ⟨⟨by decide, by decide, by decide⟩,
    ⟨Check_salt_case (NewChecker myHash mySalt) (lit "test") (fun _ => true),
      Check_salt_case (NewChecker myHash mySalt) (lit "test") (fun i => i % 2 == 1)⟩,
    by decide!, by decide!, by decide!⟩

end Password
